import Mathlib

/-!
Verification of the `graphql-edge-proxy` policy engine against its
natural-language specification.

The TypeScript sources are shallowly embedded: pure functions become Lean
functions, the process-wide document memo becomes explicit state passing,
platform collaborators (the GraphQL parser, `JSON.parse`, Web Crypto) become
function parameters, and thrown exceptions become explicit `Except`-style
outcomes.  Machine timestamps are modelled as integers.
-/

namespace GraphQLEdgeProxy

/-! ## JSON values

JSON values as produced by `JSON.parse` / consumed by `JSON.stringify`.
Numbers are modelled as integers (no claim depends on float behaviour).
`undefined` is modelled as `Option.none` at the use sites, never as a
`Json` constructor, mirroring the fact that `JSON.parse` cannot produce
`undefined`. -/

inductive Json where
  | null : Json
  | bool : Bool → Json
  | num : Int → Json
  | str : String → Json
  | arr : List Json → Json
  | obj : List (String × Json) → Json

instance : Inhabited Json := ⟨Json.null⟩

/-- JavaScript truthiness of a JSON value (`!x` / `if (x)`).
Objects and arrays are always truthy (including `[]` and `{}`). -/
def jsTruthy : Json → Bool
  | .null => false
  | .bool b => b
  | .num n => n ≠ 0
  | .str s => s ≠ ""
  | .arr _ => true
  | .obj _ => true

/-- Property access `j[k]` on a parsed JSON value: `none` models
JavaScript `undefined` (missing key, or the value is not an object). -/
def jget (j : Json) (k : String) : Option Json :=
  match j with
  | .obj kvs => kvs.lookup k
  | _ => none

/-- Truthiness of a possibly-undefined value (`undefined` is falsy). -/
def jsTruthyOpt : Option Json → Bool
  | none => false
  | some j => jsTruthy j

/-- `a ?? b` for possibly-undefined JSON values: JavaScript `??` skips
`undefined` and `null` only (falsy values such as `""` and `0` are kept). -/
def jsCoalesce (a b : Option Json) : Option Json :=
  match a with
  | none => b
  | some .null => b
  | some v => some v

/-! ## Document canonicalizer state (`src/utils.ts`, first segment)

The underlying `graphql` parser and printer are external collaborators and
are passed in as function parameters.  A parse failure (syntax error or
token-cap overflow) is `none`. -/

/-- Opaque stand-in for a `graphql` `DocumentNode` (AST identity). -/
structure DocNode where
  id : Nat
deriving Repr, DecidableEq, Inhabited

/-- The process-wide `documentMap` memo: raw source text to parsed AST. -/
abbrev DocumentMap := List (String × DocNode)

/-- `parse(input, maxTokens)` from `src/utils.ts`:

```ts
export function parse(input: string, maxTokens = 5000) {
  if (documentMap.has(input)) { return documentMap.get(input)!; }
  const parsed = _parse(input, { maxTokens: maxTokens });
  documentMap.set(input, parsed);
  return parsed;
}
```

`gp` is the external `_parse` (graphql-js); a thrown parse error is `none`
and leaves the memo unchanged (the entry is only set after a successful
parse).  Returns the result together with the updated memo. -/
def parseMemo (gp : String → Nat → Option DocNode) (st : DocumentMap)
    (input : String) (maxTokens : Nat) : Option DocNode × DocumentMap :=
  match st.lookup input with
  | some d => (some d, st)
  | none =>
    match gp input maxTokens with
    | some d => (some d, (input, d) :: st)
    | none => (none, st)

/-! ## Headers

WHATWG `Headers`: case-insensitive keys.  Modelled as an association list
whose operations normalize the key to lower case. -/

abbrev Headers := List (String × String)

def hGet (h : Headers) (k : String) : Option String :=
  (List.find? (fun p => p.1.toLower == k.toLower) h).map (fun p => p.2)

def hDelete (h : Headers) (k : String) : Headers :=
  List.filter (fun p => p.1.toLower != k.toLower) h

def hSet (h : Headers) (k v : String) : Headers :=
  hDelete h k ++ [(k.toLower, v)]

/-! ## Operation store (`src/operations.ts`, reconstructed from the unnamed
source file defining `createOperationStore` / `createOperationParseFn`) -/

inductive OperationType where
  | query | mutation | subscription
deriving Repr, DecidableEq

/-- `OpsDef`: `{operationName, operation, query, behaviour}`.  `behaviour`
is an open key-to-value map (recognized key: `ttl`). -/
structure OpsDef where
  operationName : String
  operation : OperationType
  query : String
  behaviour : List (String × Json)

/-- `opsMap.get(name)`: the store is a JS `Map` built from the operation
list, so a duplicated name keeps the *last* definition. -/
def getOperation (ops : List OpsDef) (name : String) : Option OpsDef :=
  List.find? (fun d => d.operationName == name) ops.reverse

/-- The normalized unit of work produced by admission (`ParsedRequest`). -/
structure ParsedRequestM where
  query : String
  operationName : Option String
  vars : Option Json
  headers : Headers

/-- `ParsedResult = ParsedRequest & { def: OpsDef }` from store admission. -/
structure ParsedResult where
  headers : Headers
  query : String
  operationName : String
  vars : Option Json
  opsDef : OpsDef

def ParsedResult.toParsedRequest (r : ParsedResult) : ParsedRequestM :=
  { query := r.query, operationName := some r.operationName,
    vars := r.vars, headers := r.headers }

/-- Outcome of a validator call `(def, parsed, {originalRequest})`:
`pass` models a falsy return (`undefined` / `void`), `failed` models a
truthy returned error object (whose `message` may itself be absent),
`thrown` models a raised exception. -/
inductive ValidateOutcome where
  | pass
  | failed (message : Option String)
  | thrown (msg : String)

/-- Incoming request as seen by store admission. -/
structure StoreRequest where
  method : String
  bodyText : String
  searchParams : List (String × String)
  headers : Headers

abbrev ValidateFn := OpsDef → ParsedResult → StoreRequest → ValidateOutcome

/-- Operation store: registered operations plus the validator map
(`validateMap`); `Map.get` semantics — last binding for a name wins. -/
structure OperationStore where
  ops : List OpsDef
  validators : List (String × ValidateFn)

def getValidateFn (store : OperationStore) (name : String) : Option ValidateFn :=
  (List.find? (fun p => p.1 == name) store.validators.reverse).map (fun p => p.2)

/-- `Object.fromEntries(params.entries())` keeps the LAST value of a
duplicated search parameter. -/
def lookupLastParam (params : List (String × String)) (k : String) : Option String :=
  (List.find? (fun p => p.1 == k) params.reverse).map (fun p => p.2)

/-- String coalescing `a ?? b` where `a` is a `Record<string,string>`
access: only a missing key (undefined) falls through; `""` is kept. -/
def strCoalesce (a b : Option String) : Option String :=
  match a with
  | none => b
  | some v => some v

/-- `{operation, variables}` extracted from the request. -/
structure ExtractedResponse where
  operation : Option Json
  vars : Option Json

/-- `fromPostRequest(body)`: `op ?? operationName ?? operation ?? query`
and `v ?? variables` (JavaScript `??`: skips `undefined`/`null` only). -/
def fromPostRequest (body : Json) : ExtractedResponse :=
  { operation :=
      jsCoalesce (jget body "op")
        (jsCoalesce (jget body "operationName")
          (jsCoalesce (jget body "operation") (jget body "query"))),
    vars := jsCoalesce (jget body "v") (jget body "variables") }

/-- Outcome of `defaultExtractFn` (which may throw): a thrown error carries
`e.message`, possibly absent. -/
inductive ExtractOutcome where
  | ok (e : ExtractedResponse)
  | thrown (msg : Option String)

/-- `fromGetRequest(query)`: names from `op ?? operation ?? query`;
`variables` is JSON-decoded when it is a truthy string (`JSON.parse` may
throw, which propagates to the caller's catch).  `jparse` is the platform
`JSON.parse`. -/
def fromGetRequest (jparse : String → Except String Json)
    (params : List (String × String)) : ExtractOutcome :=
  let operation := strCoalesce (lookupLastParam params "op")
    (strCoalesce (lookupLastParam params "operation") (lookupLastParam params "query"))
  let variablesRaw := strCoalesce (lookupLastParam params "v") (lookupLastParam params "variables")
  let opJson : Option Json := operation.map Json.str
  match variablesRaw with
  | none => .ok { operation := opJson, vars := none }
  | some v =>
    if v = "" then .ok { operation := opJson, vars := none }
    else
      match jparse v with
      | .ok j => .ok { operation := opJson, vars := some j }
      | .error m => .thrown (some m)

/-- `defaultExtractFn(req)`: POST decodes the JSON body, GET decodes the
query string, any other method throws `method not supported`. -/
def defaultExtractFn (jparse : String → Except String Json)
    (req : StoreRequest) : ExtractOutcome :=
  if req.method = "POST" then
    match jparse req.bodyText with
    | .ok body => .ok (fromPostRequest body)
    | .error m => .thrown (some m)
  else if req.method = "GET" then
    fromGetRequest jparse req.searchParams
  else
    .thrown (some "method not supported")

/-- A `ParsedError` `{errorCode, errorMessage}`. -/
structure ParsedErrorM where
  code : Nat
  message : String
deriving Repr, DecidableEq

/-- Result of the store admission function: success, an in-band
`ParsedError`, or an uncaught exception escaping the function. -/
inductive OpParseOutcome where
  | ok (r : ParsedResult)
  | err (e : ParsedErrorM)
  | exn (msg : String)

/-- `createOperationParseFn(store).parse(request)` (store admission):

1. extract via `defaultExtractFn`, a thrown error becomes
   `{404, e.message ?? 'cannot extract request'}`;
2. `!operation || typeof operation !== 'string'` → `{404, "no operation defined"}`;
3. unregistered name → `{404, "operation <name> not found"}`;
4. build the `ParsedResult` with `query` taken from the registered
   definition, then run the registered validator, if any: a truthy returned
   error becomes `{400, error.message ?? 'input validation'}`; note the
   source wraps no try/catch around the validator call, so a thrown
   exception escapes `parse` (modelled by `.exn`). -/
def operationParseFn (jparse : String → Except String Json)
    (store : OperationStore) (req : StoreRequest) : OpParseOutcome :=
  match defaultExtractFn jparse req with
  | .thrown m => .err ⟨404, m.getD "cannot extract request"⟩
  | .ok extracted =>
    match extracted.operation with
    | some (.str s) =>
      if s = "" then .err ⟨404, "no operation defined"⟩
      else
        match getOperation store.ops s with
        | none => .err ⟨404, "operation " ++ s ++ " not found"⟩
        | some d =>
          let result : ParsedResult :=
            { headers := req.headers, query := d.query,
              operationName := d.operationName,
              vars := extracted.vars, opsDef := d }
          match getValidateFn store d.operationName with
          | none => .ok result
          | some f =>
            match f d result req with
            | .pass => .ok result
            | .failed m => .err ⟨400, m.getD "input validation"⟩
            | .thrown e => .exn e
    | _ => .err ⟨404, "no operation defined"⟩

/-! ## Proxy stage: origin request construction (`src/utils.ts`) -/

/-- `applyForwardedHeaders` from `src/utils.ts`. -/
def applyForwardedHeaders (h : Headers) : Headers :=
  let h1 := match hGet h "X-Forwarded-Proto" with
    | none => hSet h "X-Forwarded-Proto" "https"
    | some v => if v = "" then hSet h "X-Forwarded-Proto" "https" else h
  let h2 := match hGet h1 "Host" with
    | some host => hSet h1 "X-Forwarded-Host" host
    | none => h1
  let ip := strCoalesce (hGet h2 "cf-connecting-ip") (hGet h2 "x-real-ip")
  match ip, hGet h2 "X-Forwarded-For" with
  | some v, none => hSet h2 "X-Forwarded-For" v
  | _, _ => h2

/-- Header rewriting performed by `proxy` before the origin fetch
(`originOf` is the value of `new URL(config.originURL).origin`). -/
def proxyRequestHeaders (originOf : String) (h : Headers) : Headers :=
  let h1 := hSet (hSet h "origin" originOf) "content-type" "application/json"
  let h2 := applyForwardedHeaders h1
  hDelete (hDelete (hDelete h2 "content-length") "content-encoding") "host"

/-- The `originRequest` record built by `proxy` from an admitted request:
`query`, `operationName` and `variables` are passed through unchanged. -/
def proxyOriginRequest (originOf : String) (p : ParsedRequestM) : ParsedRequestM :=
  { query := p.query, operationName := p.operationName,
    vars := p.vars,
    headers := proxyRequestHeaders originOf p.headers }

/-- The JSON body `{query, variables, operationName}` serialized by
`defaultOriginRequest` and POSTed to the origin. -/
structure OriginBody where
  query : String
  vars : Option Json
  operationName : Option String

def defaultOriginRequestBody (p : ParsedRequestM) : OriginBody :=
  { query := p.query, vars := p.vars, operationName := p.operationName }

/-! ## JSON serialization (`JSON.stringify`) -/

def escapeJsonChar (c : Char) : String :=
  if c = '"' then "\\\""
  else if c = '\\' then "\\\\"
  else if c = '\n' then "\\n"
  else if c = '\r' then "\\r"
  else if c = '\t' then "\\t"
  else String.singleton c

def escapeJsonString (s : String) : String :=
  String.join (s.toList.map escapeJsonChar)

mutual

def jsonStringify : Json → String
  | .null => "null"
  | .bool true => "true"
  | .bool false => "false"
  | .num n => toString n
  | .str s => "\"" ++ escapeJsonString s ++ "\""
  | .arr l => "[" ++ jsonStringifyArr l ++ "]"
  | .obj kvs => "\x7b" ++ jsonStringifyObj kvs ++ "\x7d"

def jsonStringifyArr : List Json → String
  | [] => ""
  | [x] => jsonStringify x
  | x :: y :: xs => jsonStringify x ++ "," ++ jsonStringifyArr (y :: xs)

def jsonStringifyObj : List (String × Json) → String
  | [] => ""
  | [(k, v)] => "\"" ++ escapeJsonString k ++ "\":" ++ jsonStringify v
  | (k, v) :: y :: xs =>
    "\"" ++ escapeJsonString k ++ "\":" ++ jsonStringify v ++ "," ++ jsonStringifyObj (y :: xs)

end

/-! ## Responses -/

/-- WHATWG `Response`: status, headers and the body text. -/
structure ResponseM where
  status : Nat
  headers : Headers
  bodyText : String

/-- `Response.ok`: status in the range 200–299. -/
def ResponseM.isOk (r : ResponseM) : Bool :=
  decide (200 ≤ r.status) && decide (r.status ≤ 299)

/-- `createErrorResponse(message, code)` (`src/index.ts` final version):
a JSON `{"message": ...}` body with `content-type: application/json`. -/
def createErrorResponse (message : String) (code : Nat) : ResponseM :=
  { status := code,
    headers := [("content-type", "application/json")],
    bodyText := jsonStringify (.obj [("message", .str message)]) }

/-- `createParseErrorResponse(error)`. -/
def createParseErrorResponse (e : ParsedErrorM) : ResponseM :=
  createErrorResponse e.message e.code

/-- `OriginGraphQLResponse = { data?, extensions?, errors? }`.  Each field
is `none` when absent (`undefined`). -/
structure GqlPayload where
  data : Option Json
  extensions : Option Json
  errors : Option Json

def jsonToPayload (j : Json) : GqlPayload :=
  { data := jget j "data", extensions := jget j "extensions", errors := jget j "errors" }

def payloadToJson (p : GqlPayload) : Json :=
  .obj ((match p.data with | some d => [("data", d)] | none => [])
    ++ (match p.extensions with | some e => [("extensions", e)] | none => [])
    ++ (match p.errors with | some e => [("errors", e)] | none => []))

/-- Is `needle` a contiguous segment of the character list? -/
def charsInfix (needle : List Char) : List Char → Bool
  | [] => needle.isEmpty
  | c :: cs => needle.isPrefixOf (c :: cs) || charsInfix needle cs

/-- `haystack.includes(needle)`. -/
def strIncludes (haystack needle : String) : Bool :=
  charsInfix needle.toList haystack.toList

/-! ## Suggestion-masking regex `/Did you mean ".+"/g`

A from-scratch executable model of the only regex the sources use.
`.` is the JavaScript dot without the `s` flag: any character except a
line terminator. -/

/-- Characters matched by `.` (not a JS line terminator). -/
def isDot (c : Char) : Bool :=
  !(c = '\n' || c = '\r' || c = ' ' || c = ' ')

/-- The literal tail `id you mean "` of the pattern (all characters of
`Did you mean "` after the leading `D`). -/
def litTail : List Char :=
  ['i', 'd', ' ', 'y', 'o', 'u', ' ', 'm', 'e', 'a', 'n', ' ', '"']

/-- The literal prefix `Did you mean "` of the pattern. -/
def lit : List Char := 'D' :: litTail

/-- Scan for the greedy closing position of `.+"`: the largest index
`k ≥ 1` with a `"` at `k` and only dot-characters before it.  `idx` is the
absolute index of the head of the remaining list, `best` the best close
found so far. -/
def findCloseAux : List Char → Nat → Option Nat → Option Nat
  | [], _, best => best
  | c :: cs, idx, best =>
    if isDot c then
      findCloseAux cs (idx + 1) (if c = '"' ∧ 1 ≤ idx then some idx else best)
    else best

def findClose (r : List Char) : Option Nat :=
  findCloseAux r 0 none

/-- Length of the (greedy) regex match starting exactly at the head of
`s`, if any: the literal, then at least one dot-character, then the
furthest reachable `"`. -/
def matchAt (s : List Char) : Option Nat :=
  if lit.isPrefixOf s then
    match findClose (s.drop 14) with
    | some k => some (14 + k + 1)
    | none => none
  else none

/-- One fuel-indexed scanning pass of
`message.replace(/Did you mean ".+"/g, mask)`: scan left to right,
replace every (greedy, non-overlapping) match by the mask, resume after
the match.  Each step consumes at least one character, so fuel
`s.length` always suffices (`replaceAllGo_fuel` shows the result is
fuel-independent). -/
def replaceAllGo (mask : List Char) : Nat → List Char → List Char
  | _, [] => []
  | 0, s => s
  | fuel + 1, c :: cs =>
    match matchAt (c :: cs) with
    | some len => mask ++ replaceAllGo mask fuel ((c :: cs).drop len)
    | none => c :: replaceAllGo mask fuel cs

/-- The global replacement over a character list. -/
def replaceAllAux (mask : List Char) (s : List Char) : List Char :=
  replaceAllGo mask s.length s

def replaceAll (s mask : String) : String :=
  String.mk (replaceAllAux mask.toList s.toList)

/-- Whether some substring of `s` matches the pattern (a match starts at
some suffix). -/
def containsMatch : List Char → Bool
  | [] => false
  | c :: cs => (matchAt (c :: cs)).isSome || containsMatch cs

/-- String-level test used in claim statements. -/
def matchesSuggestion (s : String) : Bool :=
  containsMatch s.toList

/-! ## Response shaping (`parseOriginResponse` / `maskError`,
`src/index.ts` final version) -/

/-- `kvs` with the value at key `k` replaced (object spread
`{...error, message: ...}` keeps the original key order). -/
def setKey (kvs : List (String × Json)) (k : String) (v : Json) : List (String × Json) :=
  kvs.map (fun p => if p.1 = k then (p.1, v) else p)

/-- `maskError(error, mask)`: when `error.message` is a truthy string,
return a copy with every regex match replaced by the mask; otherwise
return the error unchanged.  (A truthy non-string `message` would make
the JS `.replace` call throw; no claim involves such payloads and the
model leaves them unchanged.) -/
def maskErrorJson (mask : String) (e : Json) : Json :=
  match e with
  | .obj kvs =>
    match kvs.lookup "message" with
    | some (.str s) =>
      if s = "" then .obj kvs
      else .obj (setKey kvs "message" (.str (replaceAll s mask)))
    | _ => .obj kvs
  | e => e

/-- `errorMasking && hasErrors(errors)` guarded mapping over the errors
array.  `hasErrors` is `Boolean(errors) && Array.isArray(errors)`, true
for any array (including `[]`). -/
def applyErrorMasking (errorMasking : Option String) (errs : Option Json) : Option Json :=
  match errorMasking with
  | some m =>
    if m = "" then errs
    else
      match errs with
      | some (.arr l) => some (.arr (l.map (maskErrorJson m)))
      | other => other
  | none => errs

/-- Payload transformation done by `parseOriginResponse`: error masking,
then `extensions` removal (only when the flag is set AND the field is
truthy). -/
def shapePayload (errorMasking : Option String) (removeExtensions : Bool)
    (p : GqlPayload) : GqlPayload :=
  { data := p.data,
    extensions := if removeExtensions && jsTruthyOpt p.extensions then none else p.extensions,
    errors := applyErrorMasking errorMasking p.errors }

/-- Header rewriting done by `parseOriginResponse`. -/
def shapeHeaders (h : Headers) : Headers :=
  hSet (hDelete (hDelete (hDelete h "content-encoding") "content-length") "transfer-encoding")
    "content-type" "application/json; charset=utf-8"

/-- `parseOriginResponse(gqlResponse, originResponse, parseOptions)`. -/
def parseOriginResponseM (errorMasking : Option String) (removeExtensions : Bool)
    (p : GqlPayload) (originResponse : ResponseM) : ResponseM :=
  { status := 200,
    headers := shapeHeaders originResponse.headers,
    bodyText := jsonStringify (payloadToJson (shapePayload errorMasking removeExtensions p)) }

/-! ## Handler pipeline (`createGraphQLProxy` / `createHandler`,
`src/index.ts` final version) -/

/-- Outcome of the downstream fetch: a thrown error carries `e.message`
(possibly absent, cf. `e.message ?? 'internal error'`). -/
abbrev FetchOutcome := Except (Option String) ResponseM

/-- The guarded proxy step of `createGraphQLProxy`:

```ts
try { proxyResponse = await finalOpts.proxy(parsed); }
catch (e) { return createErrorResponse(e.message ?? 'internal error', 500); }
```
-/
def proxyStep (fetchOut : FetchOutcome) : ResponseM :=
  match fetchOut with
  | .ok r => r
  | .error e => createErrorResponse (e.getD "internal error") 500

/-- `parseResponse` (`_parseProxy`): `null` unless the response is ok,
carries a JSON-ish content type and its body JSON-decodes. -/
def parseResponseStep (jparse : String → Except String Json) (r : ResponseM) :
    Option GqlPayload :=
  if !r.isOk then none
  else
    let ct := (hGet r.headers "content-type").getD ""
    if !(strIncludes ct "application/json" || strIncludes ct "application/graphql-response+json")
    then none
    else
      match jparse r.bodyText with
      | .ok j => some (jsonToPayload j)
      | .error _ => none

/-- The response produced by `createHandler`'s `handle` for one request,
with the default `formatOriginResp` options (`errorMasking:
'[Suggestion hidden]', removeExtensions: false`). -/
def handleResponse (jparse : String → Except String Json)
    (parsed : Except ParsedErrorM ParsedRequestM) (fetchOut : FetchOutcome) : ResponseM :=
  match parsed with
  | .error e => createParseErrorResponse e
  | .ok _ =>
    let proxyResponse := proxyStep fetchOut
    if !proxyResponse.isOk then proxyResponse
    else
      match parseResponseStep jparse proxyResponse with
      | none => createErrorResponse "cannot parse response" 406
      | some payload =>
        parseOriginResponseM (some "[Suggestion hidden]") false payload proxyResponse

/-! ## Report collector (`src/reporting.ts` final version,
`createReportCollector`) -/

/-- What the `onRequestParsed` hook stored (`{ts, parsed}`). -/
structure CtxParsed where
  ts : Int
  parsed : Except ParsedErrorM ParsedRequestM

/-- What the `onProxied` hook stored (`{ts, response}`). -/
structure CtxProxy where
  ts : Int
  response : ResponseM

/-- What the `onResponseParsed` hook stored (`{ts, resp}`). -/
structure CtxGql where
  ts : Int
  resp : GqlPayload

/-- The per-request `ReportContext` with its three slots. -/
structure ReportContext where
  parsedRec : Option CtxParsed
  proxyRec : Option CtxProxy
  gqlRec : Option CtxGql

def emptyReportContext : ReportContext :=
  { parsedRec := none, proxyRec := none, gqlRec := none }

structure ReportDurations where
  parsing : Int
  proxying : Int
  processing : Int
  total : Int

/-- The emitted `Report`. -/
structure ReportM where
  errors : Option (List Json)
  ok : Bool
  originStatus : Option Nat
  operationName : Option String
  query : Option String
  inputSize : Nat
  responseSize : Option Int
  responseMap : Option (List (String × Nat))
  durations : ReportDurations

/-- `responseTextToError(responseText, status)`: the parsed body JSON, or
a synthesized `{message, status}` when the body is not JSON. -/
def responseTextToError (jparse : String → Except String Json)
    (responseText : String) (status : Nat) : Json :=
  match jparse responseText with
  | .ok j => j
  | .error _ =>
    .obj [("message", .str ("cannot parse error: " ++ toString status)),
          ("status", .num status)]

/-- Bump the occurrence count of `path` by `n` (`map.set(path,
(map.get(path) ?? 0) + n)`). -/
def bumpPath (m : List (String × Nat)) (path : String) (n : Nat) : List (String × Nat) :=
  match m.lookup path with
  | some old => m.map (fun p => if p.1 == path then (p.1, old + n) else p)
  | none => m ++ [(path, n)]

mutual

/-- `calculateResponse(item, path, map)`: depth-first walk counting JSON
paths.  An array charges its own path with its length and walks elements
under the same path; an object walks keys under `path.key`; a leaf counts
one.  (`undefined` never occurs inside a `JSON.parse`d tree.) -/
def calcResponse : Json → String → List (String × Nat) → List (String × Nat)
  | .arr l, path, m => calcResponseList l path (bumpPath m path l.length)
  | .obj kvs, path, m => calcResponseObj kvs path m
  | _, path, m => bumpPath m path 1

def calcResponseList : List Json → String → List (String × Nat) → List (String × Nat)
  | [], _, m => m
  | x :: xs, path, m => calcResponseList xs path (calcResponse x path m)

def calcResponseObj : List (String × Json) → String → List (String × Nat) → List (String × Nat)
  | [], _, m => m
  | (k, v) :: xs, path, m => calcResponseObj xs path (calcResponse v (path ++ "." ++ k) m)

end

/-- `calculateResponseMap(data)`: `{}` unless `data` is a truthy object. -/
def calculateResponseMap (data : Option Json) : List (String × Nat) :=
  match data with
  | some (.arr l) => calcResponse (.arr l) "$" []
  | some (.obj kvs) => calcResponse (.obj kvs) "$" []
  | _ => []

/-- `calculateSize(json)`: UTF-8 byte length of the serialized variables,
0 when falsy. -/
def calculateSize (v : Option Json) : Nat :=
  if jsTruthyOpt v then (jsonStringify ((v.getD .null))).utf8ByteSize else 0

/-- `+(clonedResponse.headers.get('content-size') ?? buffer.byteLength)`:
`none` models `NaN` from an unparseable header value. -/
def responseSizeOf (r : ResponseM) : Option Int :=
  match hGet r.headers "content-size" with
  | some s => if s = "" then some 0 else s.toInt?
  | none => some (Int.ofNat r.bodyText.utf8ByteSize)

/-- `resp.errors === undefined || (Array.isArray(resp.errors) &&
resp.errors.length === 0)` — the errors part of the `ok` computation. -/
def gqlErrorsAbsentOrEmpty : Option Json → Bool
  | none => true
  | some (.arr l) => l.isEmpty
  | some _ => false

/-- The `ok` field computed by `collect`:
`clonedResponse.status >= 200 && clonedResponse.status < 400 &&
gqlResponse?.resp.data !== undefined && (errors absent or empty)`.
Note the data test is `!== undefined`: a present `data: null` passes. -/
def reportOkOf (status : Nat) (gqlRec : Option CtxGql) : Bool :=
  decide (200 ≤ status) && decide (status < 400) &&
    (match gqlRec with
     | none => false
     | some g => g.resp.data.isSome && gqlErrorsAbsentOrEmpty g.resp.errors)

/-- The fallback branch of the `errors` field: synthesize one error from
the response body — but only when `status > 400` (strictly). -/
def reportErrorsFallback (jparse : String → Except String Json)
    (bodyText : String) (status : Nat) : Option (List Json) :=
  if 400 < status then some [responseTextToError jparse bodyText status] else none

/-- The `errors` field computed by `collect`: prefer a non-empty upstream
errors array, otherwise the synthesized fallback. -/
def reportErrorsOf (jparse : String → Except String Json)
    (bodyText : String) (status : Nat) (gqlRec : Option CtxGql) : Option (List Json) :=
  match gqlRec with
  | some g =>
    match g.resp.errors with
    | some (.arr l) =>
      if 0 < l.length then some l else reportErrorsFallback jparse bodyText status
    | _ => reportErrorsFallback jparse bodyText status
  | none => reportErrorsFallback jparse bodyText status

/-- `createReportCollector(...).collect(response)`.

`started_at` is captured when the collector is created, `collect_at` when
`collect` runs; the context has been filled by the hooks.  Returns `null`
when no request was ever parsed. -/
def collectReport (jparse : String → Except String Json) (calcResponseOpt : Bool)
    (started_at collect_at : Int) (ctx : ReportContext) (response : ResponseM) :
    Option ReportM :=
  let total := collect_at - started_at
  let responseSize := responseSizeOf response
  match ctx.parsedRec with
  | none => none
  | some pr =>
    let parsingDuration := pr.ts - started_at
    match pr.parsed with
    | .error e =>
      some { ok := false,
             responseSize := responseSize,
             durations := { parsing := parsingDuration, processing := 0,
                            proxying := 0, total := total },
             inputSize := 0,
             errors := some [.obj [("message", .str ("cannot parse: " ++ e.message))]],
             originStatus := none, operationName := none, query := none,
             responseMap := none }
    | .ok p =>
      some { ok := reportOkOf response.status ctx.gqlRec,
             responseSize := responseSize,
             responseMap :=
               match ctx.gqlRec with
               | some g =>
                 if calcResponseOpt then some (calculateResponseMap g.resp.data) else none
               | none => none,
             inputSize := calculateSize p.vars,
             errors := reportErrorsOf jparse response.bodyText response.status ctx.gqlRec,
             operationName := p.operationName,
             originStatus := ctx.proxyRec.map (fun x => x.response.status),
             query := some p.query,
             durations :=
               { parsing := parsingDuration,
                 proxying := match ctx.proxyRec with
                   | some x => x.ts - pr.ts
                   | none => 0,
                 total := total,
                 processing := match ctx.proxyRec with
                   | some x => collect_at - x.ts
                   | none => 0 } }

/-! ## Signature admission (`src/signature.ts`, `createSignatureParseFn`)

Web Crypto is an external collaborator, abstracted by `CryptoModel`:
`sha256Hex` is the hex SHA-256 digest; `hmacHex secret algo message` is
the hex HMAC under the configured secret; `timingEq` is the observable
behaviour of `webTimingSafeEqual` (it HMACs both strings under a fresh
random key and compares the hex digests, so it decides equality of the
two strings up to HMAC collisions). -/

inductive SigAlgo where
  | sha1 | sha256 | sha384 | sha512
deriving Repr, DecidableEq

/-- `sign_secret`: a bare secret string or `{secret, algorithm}`. -/
inductive SignSecret where
  | plain (s : String)
  | withAlgo (secret : String) (algorithm : SigAlgo)

/-- Truthiness of `rules.sign_secret` (`null` and `""` are falsy). -/
def signSecretTruthy : Option SignSecret → Bool
  | none => false
  | some (.plain s) => s ≠ ""
  | some (.withAlgo _ _) => true

/-- `typeof sign_secret === 'string' ? sign_secret : sign_secret.secret`. -/
def signSecretValue : Option SignSecret → String
  | some (.plain s) => s
  | some (.withAlgo sec _) => sec
  | none => ""

/-- `typeof sign_secret === 'object' ? sign_secret.algorithm : 'SHA-256'`. -/
def signSecretAlgo : Option SignSecret → SigAlgo
  | some (.withAlgo _ a) => a
  | _ => .sha256

structure CryptoModel where
  sha256Hex : String → String
  hmacHex : String → SigAlgo → String → String
  timingEq : String → String → Bool

structure SigConfig where
  passThroughHash : String
  signSecret : Option SignSecret
  maxTokens : Nat

/-- Incoming request as seen by signature admission: the two policy
headers, the `request.json()` outcome, and the raw headers. -/
structure SigRequest where
  opHashHeader : Option String
  passHeader : Option String
  bodyJson : Except String Json
  headers : Headers

/-- `isPassthroughRequest`: false when the passthrough header is missing
or empty, else SHA-256 the header value and string-compare the hex digest
against the configured `passThroughHash`. -/
def isPassthroughRequest (cm : CryptoModel) (passThroughHash : String)
    (passHeader : Option String) : Bool :=
  match passHeader with
  | none => false
  | some v => if v = "" then false else passThroughHash == cm.sha256Hex v

/-- `getOperationHashFromHeader` is `null` or possibly-empty; `!hashHeader`
is true for both `null` and `""`. -/
def hashHeaderFalsy : Option String → Bool
  | none => true
  | some v => v == ""

/-- The `ParsedResponse` of signature admission (`ParsedRequest` plus the
`isPassthrough` flag).  `operationName`/`variables` are whatever JSON the
body carried. -/
structure SigParsed where
  query : String
  operationName : Option Json
  vars : Option Json
  headers : Headers
  isPassthrough : Bool

/-- `createSignatureParseFn(config)` applied to a request.

`parseQ q` is the (memoized) `parse(q, config.maxTokens ?? 2000)`:
`none` when it throws.  A truthy non-string `body.query` also makes the
graphql parser throw (`cannot parse query`).  `printNorm` is
`printNormalized`. -/
def signatureParseFn (cm : CryptoModel) (parseQ : String → Option DocNode)
    (printNorm : DocNode → String) (cfg : SigConfig) (req : SigRequest) :
    Except ParsedErrorM SigParsed :=
  let isPass := isPassthroughRequest cm cfg.passThroughHash req.passHeader
  let hashHeader := req.opHashHeader
  let secretOn := signSecretTruthy cfg.signSecret
  if !isPass && secretOn && hashHeaderFalsy hashHeader then
    .error ⟨403, "signature not defined"⟩
  else
    match req.bodyJson with
    | .error _ => .error ⟨403, "not valid body"⟩
    | .ok body =>
      let q := jget body "query"
      if !jsTruthyOpt q then .error ⟨403, "Missing query in body"⟩
      else
        match q with
        | some (.str s) =>
          match parseQ s with
          | none => .error ⟨403, "cannot parse query"⟩
          | some doc =>
            let stableQuery := printNorm doc
            let result : SigParsed :=
              { query := s, operationName := jget body "operationName",
                vars := jget body "variables", headers := req.headers,
                isPassthrough := isPass }
            if !isPass && secretOn then
              let value := cm.hmacHex (signSecretValue cfg.signSecret)
                (signSecretAlgo cfg.signSecret) stableQuery
              let verified := match hashHeader with
                | some hv => cm.timingEq hv value
                | none => false
              if !verified then .error ⟨403, "Invalid x-proxy-op-hash header"⟩
              else .ok result
            else .ok result
        | _ => .error ⟨403, "cannot parse query"⟩

/-! ## Helper predicates for the suggestion-masking proof -/

/-- Is there a quote at some position `j ≥ 0` preceded only by
dot-characters?  (The first "line" of `s` can close a pending `.+"`.) -/
def find0 : List Char → Bool
  | [] => false
  | c :: cs => c = '"' || (isDot c && find0 cs)

/-- Is there a quote at some position `j ≥ 1` preceded only by
dot-characters?  This is exactly `(findClose s).isSome`. -/
def findQ : List Char → Bool
  | [] => false
  | c :: cs => isDot c && find0 cs

/-- Masks for which replacement provably removes every match: non-empty,
no `D` anywhere (so no match can start inside or right after a mask), and
a first character that cannot continue the literal `Did you mean "`. -/
def maskSafe (mask : List Char) : Bool :=
  !mask.isEmpty && !mask.contains 'D' &&
    (match mask.head? with
     | some c => !litTail.contains c
     | none => true)

/-! ## Concrete instances of the external collaborators

Used to evaluate the model on concrete inputs (witnesses and
counterexamples).  The parser/crypto functions are opaque to the model;
these fixtures give them small executable behaviours. -/

/-- A parser that accepts any input of at most `m` tokens, counting one
token per character (enough to exercise the token cap). -/
def gpFix : String → Nat → Option DocNode :=
  fun s m => if s.length ≤ m then some ⟨s.length⟩ else none

/-- Registered operation used by concrete store instances. -/
def opMeFix : OpsDef :=
  { operationName := "me", operation := .query, query := "query me \x7b me \x7d",
    behaviour := [("ttl", .num 3)] }

/-- A `JSON.parse` fixture: a few known body texts decode, everything else
throws. -/
def jparseFix : String → Except String Json :=
  fun s =>
    if s = "bodyOpMe" then
      .ok (.obj [("op", .str "me"), ("query", .str "query evil \x7b secrets \x7d"),
                 ("v", .obj [("a", .num 1)])])
    else if s = jsonStringify (.obj [("message", .str "connect ECONNREFUSED")]) then
      .ok (.obj [("message", .str "connect ECONNREFUSED")])
    else if s = "bodyQueryMe" then
      .ok (.obj [("query", .str "query me \x7b me \x7d")])
    else
      .error "Unexpected token"

/-- Crypto fixture: injective tag functions and plain string equality for
the timing-safe comparison. -/
def cryptoFix : CryptoModel :=
  { sha256Hex := fun s => "sha256;" ++ s,
    hmacHex := fun secret _ msg => "hmac;" ++ secret ++ ";" ++ msg,
    timingEq := fun a b => a == b }

/-- `parse(q, maxTokens)` fixture for signature admission: only the demo
query parses. -/
def parseQFix : String → Option DocNode :=
  fun s => if s = "query me \x7b me \x7d" then some ⟨7⟩ else none

/-- `printNormalized` fixture. -/
def printNormFix : DocNode → String :=
  fun _ => "query me \x7b me \x7d"

/-- A validator that throws (for the C2 analysis). -/
def throwingValidator : ValidateFn := fun _ _ _ => .thrown "boom"

/-- Store whose only operation carries the throwing validator. -/
def storeThrowFix : OperationStore :=
  { ops := [opMeFix], validators := [("me", throwingValidator)] }

/-- Store with the one registered operation and no validators. -/
def storeFix : OperationStore := { ops := [opMeFix], validators := [] }

/-- POST request whose body names operation `me` but smuggles its own
query text. -/
def reqOpMeFix : StoreRequest :=
  { method := "POST", bodyText := "bodyOpMe", searchParams := [],
    headers := [("host", "edge.example")] }

/-- The `ParsedResult` that `reqOpMeFix` is admitted with. -/
def admittedFix : ParsedResult :=
  { headers := reqOpMeFix.headers, query := opMeFix.query,
    operationName := "me", vars := some (.obj [("a", .num 1)]),
    opsDef := opMeFix }

/-- A validator that rejects with a message. -/
def failingValidator : ValidateFn := fun _ _ _ => .failed (some "not valid input")

/-- Store whose only operation carries the rejecting validator. -/
def storeFailFix : OperationStore :=
  { ops := [opMeFix], validators := [("me", failingValidator)] }

/-- What `defaultExtractFn` extracts from `reqOpMeFix`. -/
def extractedFix : ExtractedResponse :=
  { operation := some (.str "me"), vars := some (.obj [("a", .num 1)]) }

/-- An admitted parsed request used in collector scenarios. -/
def pReqFix : ParsedRequestM :=
  { query := "query me \x7b me \x7d", operationName := some "me",
    vars := none, headers := [] }

/-- A plain 200 response. -/
def resp200Fix : ResponseM :=
  { status := 200, headers := [("content-type", "application/json")],
    bodyText := "respBody" }

/-- Report context after a successful request: parsed at 110, proxied at
150 (no response-parse record). -/
def ctx6Fix : ReportContext :=
  { parsedRec := some ⟨110, .ok pReqFix⟩,
    proxyRec := some ⟨150, resp200Fix⟩,
    gqlRec := none }

instance : Inhabited ReportM :=
  ⟨{ errors := none, ok := false, originStatus := none, operationName := none,
     query := none, inputSize := 0, responseSize := none, responseMap := none,
     durations := ⟨0, 0, 0, 0⟩ }⟩

/-- The report the collector emits for `ctx6Fix` at `collect_at = 170`. -/
def report6Fix : ReportM :=
  (collectReport jparseFix true 100 170 ctx6Fix resp200Fix).getD default

/-- An origin payload `{"data": null}` — `data` present but null, no
`errors` key. -/
def payloadNullDataFix : GqlPayload :=
  { data := some .null, extensions := none, errors := none }

/-- Context for the C4 scenario: request parsed, proxied, and the parsed
payload is `{"data": null}`. -/
def ctx4Fix : ReportContext :=
  { parsedRec := some ⟨110, .ok pReqFix⟩,
    proxyRec := some ⟨150, resp200Fix⟩,
    gqlRec := some ⟨160, payloadNullDataFix⟩ }

/-- The report the collector emits in the C4 scenario. -/
def report4Fix : ReportM :=
  (collectReport jparseFix true 100 170 ctx4Fix resp200Fix).getD default

/-- A 400 response whose body is not JSON. -/
def resp400Fix : ResponseM :=
  { status := 400, headers := [], bodyText := "bad" }

/-- A 401 response whose body is not JSON. -/
def resp401Fix : ResponseM :=
  { status := 401, headers := [], bodyText := "bad" }

/-- The 500 response the handler produces when the downstream fetch
throws `connect ECONNREFUSED`. -/
def respC3Fix : ResponseM := createErrorResponse "connect ECONNREFUSED" 500

/-- The report collected after that failed fetch. -/
def reportC3Fix : ReportM :=
  (collectReport jparseFix true 100 170
    ⟨some ⟨110, .ok pReqFix⟩, some ⟨150, respC3Fix⟩, none⟩ respC3Fix).getD default

/-- Signature admission config of the passthrough scenarios:
`pass_through_hash = SHA-256-hex("pass")`, signing secret `signature`. -/
def sigCfgFix : SigConfig :=
  { passThroughHash := cryptoFix.sha256Hex "pass",
    signSecret := some (.plain "signature"), maxTokens := 1000 }

/-- Signature admission config with `sign_secret` absent. -/
def sigCfgNoSecretFix : SigConfig :=
  { passThroughHash := cryptoFix.sha256Hex "pass", signSecret := none,
    maxTokens := 1000 }

/-- The C8 request as the claim states it: passthrough header `KABOOM`
and NO `x-proxy-op-hash` header. -/
def sigReqC8Fix : SigRequest :=
  { opHashHeader := none, passHeader := some "KABOOM",
    bodyJson := .ok (.obj [("query", .str "query me \x7b me \x7d")]),
    headers := [] }

/-- The C8 request as the repository's test actually sends it: the
`x-proxy-op-hash` header present with the unverifiable value `hash123`. -/
def sigReqC8hFix : SigRequest :=
  { opHashHeader := some "hash123", passHeader := some "KABOOM",
    bodyJson := .ok (.obj [("query", .str "query me \x7b me \x7d")]),
    headers := [] }

/-- A well-formed POST body request with no policy headers at all. -/
def sigReqPlainFix : SigRequest :=
  { opHashHeader := none, passHeader := none,
    bodyJson := .ok (.obj [("query", .str "query me \x7b me \x7d")]),
    headers := [] }

/-- Does this error's `message` (when it is a string) match the
suggestion pattern? -/
def errMessageMatches (e : Json) : Bool :=
  match e with
  | .obj kvs =>
    match kvs.lookup "message" with
    | some (.str s) => matchesSuggestion s
    | _ => false
  | _ => false

/-- Does the payload contain no error whose message matches the
suggestion pattern?  (Vacuously true when `errors` is not an array.) -/
def payloadErrorsClean (p : GqlPayload) : Bool :=
  match p.errors with
  | some (.arr l) => l.all (fun e => !errMessageMatches e)
  | _ => true

/-- An origin payload carrying one suggestion-leaking error. -/
def payloadC9Fix : GqlPayload :=
  { data := none, extensions := none,
    errors := some (.arr [.obj [("message", .str "Did you mean \"X\"")]]) }

/-! # Theorems -/

/-! ## C10 — parse memoization bypasses the token cap -/

/-- C10: the document parse function memoizes solely on the raw input
string and returns the cached document on a hit before consulting the
token limit; once `parse(s, m)` succeeded under limit `m`, every later
call `parse(s, m')` with a smaller limit `m'` also succeeds and returns
the cached document, so the `max_tokens` cap is not enforced on cache
hits. -/
theorem c10_parse_memo_cache_defeats_token_cap
    (gp : String → Nat → Option DocNode) (st st' : DocumentMap)
    (s : String) (m m' : Nat) (d : DocNode)
    (hm : m' ≤ m) (h : parseMemo gp st s m = (some d, st')) :
    parseMemo gp st' s m' = (some d, st') := by
  unfold parseMemo at h ⊢
  cases hl : List.lookup s st with
  | some d0 =>
    rw [hl] at h
    simp only [Prod.mk.injEq, Option.some.injEq] at h
    obtain ⟨rfl, rfl⟩ := h
    rw [hl]
  | none =>
    rw [hl] at h
    cases hg : gp s m with
    | none => rw [hg] at h; simp at h
    | some d1 =>
      rw [hg] at h
      simp only [Prod.mk.injEq, Option.some.injEq] at h
      obtain ⟨rfl, rfl⟩ := h
      simp [List.lookup]

/-- Witness for C10: a 8-character query parsed under cap 10 is admitted
again under cap 1, although the raw parser rejects it at that cap. -/
theorem c10_parse_memo_cache_defeats_token_cap_witness :
    parseMemo gpFix [] "query me" 10 = (some ⟨8⟩, [("query me", ⟨8⟩)]) ∧
    gpFix "query me" 1 = none ∧
    parseMemo gpFix [("query me", ⟨8⟩)] "query me" 1 = (some ⟨8⟩, [("query me", ⟨8⟩)]) :=
  ⟨by decide, by decide,
   c10_parse_memo_cache_defeats_token_cap gpFix [] [("query me", ⟨8⟩)]
     "query me" 10 1 ⟨8⟩ (by decide) (by decide)⟩

/-! ## C1 — store admission always forwards the registered query -/

/-- C1: for every registered operation and every client request admitted
by store admission (`createOperationParseFn`), the `ParsedRequest`'s
`query` equals the registered operation's query text, regardless of any
query text the caller sent in the body; consequently the origin body
built by the proxy stage (`defaultOriginRequest`) carries the stored
query. -/
theorem c1_store_admission_query_is_registered
    (jparse : String → Except String Json) (store : OperationStore)
    (req : StoreRequest) (originOf : String) (r : ParsedResult)
    (h : operationParseFn jparse store req = .ok r) :
    r.opsDef ∈ store.ops ∧ r.query = r.opsDef.query ∧
      (defaultOriginRequestBody
        (proxyOriginRequest originOf r.toParsedRequest)).query = r.opsDef.query := by
  unfold operationParseFn at h
  cases hex : defaultExtractFn jparse req with
  | thrown m => simp only [hex] at h; exact OpParseOutcome.noConfusion h
  | ok extracted =>
    simp only [hex] at h
    cases hop : extracted.operation with
    | none => simp only [hop] at h; exact OpParseOutcome.noConfusion h
    | some j =>
      cases j with
      | str s =>
        simp only [hop] at h
        by_cases hs : s = ""
        · simp only [hs, if_true] at h; exact OpParseOutcome.noConfusion h
        · rw [if_neg hs] at h
          cases hget : getOperation store.ops s with
          | none => simp only [hget] at h; exact OpParseOutcome.noConfusion h
          | some d =>
            simp only [hget] at h
            have hmem : d ∈ store.ops :=
              List.mem_reverse.mp (List.mem_of_find?_eq_some hget)
            cases hvf : getValidateFn store d.operationName with
            | none =>
              simp only [hvf, OpParseOutcome.ok.injEq] at h
              subst h
              exact ⟨hmem, rfl, rfl⟩
            | some f =>
              simp only [hvf] at h
              cases hv : f d ⟨req.headers, d.query, d.operationName,
                  extracted.vars, d⟩ req with
              | pass =>
                rw [hv] at h
                simp only [OpParseOutcome.ok.injEq] at h
                subst h
                exact ⟨hmem, rfl, rfl⟩
              | failed m => rw [hv] at h; simp at h
              | thrown e => rw [hv] at h; simp at h
      | null => simp only [hop] at h; exact OpParseOutcome.noConfusion h
      | bool b => simp only [hop] at h; exact OpParseOutcome.noConfusion h
      | num n => simp only [hop] at h; exact OpParseOutcome.noConfusion h
      | arr l => simp only [hop] at h; exact OpParseOutcome.noConfusion h
      | obj kvs => simp only [hop] at h; exact OpParseOutcome.noConfusion h

/-- Witness for C1: a POST body naming operation `me` while carrying its
own `query` text is admitted with the registered query, which is what the
origin body carries. -/
theorem c1_store_admission_query_is_registered_witness :
    operationParseFn jparseFix storeFix reqOpMeFix = .ok admittedFix ∧
    (admittedFix.opsDef ∈ storeFix.ops ∧
      admittedFix.query = admittedFix.opsDef.query ∧
      (defaultOriginRequestBody (proxyOriginRequest "http://app.localhost"
        admittedFix.toParsedRequest)).query = admittedFix.opsDef.query) :=
  ⟨rfl, c1_store_admission_query_is_registered jparseFix storeFix reqOpMeFix
    "http://app.localhost" admittedFix rfl⟩

/-! ## C2 — validator failure handling (corrected) -/

/-- Counterexample to C2 as stated: a validator that throws does NOT
yield a `{400, "input validation"}` `ParsedError`; the exception escapes
store admission unhandled (there is no try/catch around the validator
call). -/
theorem c2_validator_exception_counterexample :
    operationParseFn jparseFix storeThrowFix reqOpMeFix = .exn "boom" ∧
    OpParseOutcome.exn "boom" ≠
      OpParseOutcome.err ⟨400, "input validation"⟩ :=
  ⟨rfl, fun hc => OpParseOutcome.noConfusion hc⟩

/-- C2 (amended): for every request resolved by store admission to an
operation with a registered validator, a truthy returned error becomes a
400 `ParsedError` carrying the validator's message (with `"input
validation"` only as the fallback when the returned error has no
message), while a thrown exception is NOT caught: it propagates out of
admission instead of becoming a 400 response. -/
theorem c2_validator_error_and_exception
    (jparse : String → Except String Json) (store : OperationStore)
    (req : StoreRequest) (extracted : ExtractedResponse) (s : String)
    (d : OpsDef) (f : ValidateFn)
    (hex : defaultExtractFn jparse req = .ok extracted)
    (hop : extracted.operation = some (.str s)) (hs : s ≠ "")
    (hget : getOperation store.ops s = some d)
    (hvf : getValidateFn store d.operationName = some f) :
    (∀ m, f d ⟨req.headers, d.query, d.operationName, extracted.vars, d⟩ req = .failed m →
      operationParseFn jparse store req = .err ⟨400, m.getD "input validation"⟩) ∧
    (∀ e, f d ⟨req.headers, d.query, d.operationName, extracted.vars, d⟩ req = .thrown e →
      operationParseFn jparse store req = .exn e) := by
  constructor
  · intro m hv
    unfold operationParseFn
    simp only [hex, hop, if_neg hs, hget, hvf, hv]
  · intro e hv
    unfold operationParseFn
    simp only [hex, hop, if_neg hs, hget, hvf, hv]

/-- Witness for the amended C2: the rejecting validator produces
`{400, "not valid input"}`; the throwing validator's exception escapes. -/
theorem c2_validator_error_and_exception_witness :
    operationParseFn jparseFix storeFailFix reqOpMeFix =
      .err ⟨400, "not valid input"⟩ ∧
    operationParseFn jparseFix storeThrowFix reqOpMeFix = .exn "boom" :=
  ⟨(c2_validator_error_and_exception jparseFix storeFailFix reqOpMeFix
      extractedFix "me" opMeFix failingValidator rfl rfl (by decide) rfl rfl).1
      (some "not valid input") rfl,
   (c2_validator_error_and_exception jparseFix storeThrowFix reqOpMeFix
      extractedFix "me" opMeFix throwingValidator rfl rfl (by decide) rfl rfl).2
      "boom" rfl⟩

/-! ## C6 — report durations: total dominates the phase sum -/

/-- C6: for every report emitted by the collector (provided collection
happens no earlier than the recorded parse timestamp, which the pipeline
guarantees), `durations.total ≥ parsing + proxying + processing`; this
includes the cases where the proxy or response-parse records are missing
and the corresponding durations are zeroed. -/
theorem c6_report_total_dominates_phase_sum
    (jparse : String → Except String Json) (calcOpt : Bool)
    (started_at collect_at : Int) (ctx : ReportContext) (response : ResponseM)
    (report : ReportM)
    (hts : ∀ pr, ctx.parsedRec = some pr → pr.ts ≤ collect_at)
    (hc : collectReport jparse calcOpt started_at collect_at ctx response = some report) :
    report.durations.parsing + report.durations.proxying +
      report.durations.processing ≤ report.durations.total := by
  unfold collectReport at hc
  cases hpr : ctx.parsedRec with
  | none => rw [hpr] at hc; exact absurd hc (by simp)
  | some pr =>
    have hts' : pr.ts ≤ collect_at := hts pr hpr
    simp only [hpr] at hc
    cases hpp : pr.parsed with
    | error e =>
      simp only [hpp, Option.some.injEq] at hc
      subst hc
      dsimp only
      omega
    | ok p =>
      simp only [hpp, Option.some.injEq] at hc
      subst hc
      cases hpx : ctx.proxyRec with
      | none => simp only [hpx]; omega
      | some x => simp only [hpx]; omega

/-- Witness for C6 at concrete timestamps 100/110/150/170: the emitted
report satisfies the duration inequality. -/
theorem c6_report_total_dominates_phase_sum_witness :
    collectReport jparseFix true 100 170 ctx6Fix resp200Fix = some report6Fix ∧
    report6Fix.durations.parsing + report6Fix.durations.proxying +
      report6Fix.durations.processing ≤ report6Fix.durations.total :=
  ⟨rfl,
   c6_report_total_dominates_phase_sum jparseFix true 100 170 ctx6Fix resp200Fix
     report6Fix
     (fun pr hpr => by
       simp only [ctx6Fix, Option.some.injEq] at hpr
       subst hpr
       decide)
     rfl⟩

/-! ## C4 — the report's `ok` flag (corrected: `data` may be null) -/

/-- Counterexample to C4 as stated: with origin status 200, payload
`{"data": null}` and no `errors` key, the collector sets `ok = true`
although the payload's `data` is null — the code tests
`data !== undefined`, not non-null. -/
theorem c4_ok_true_on_null_data_counterexample :
    collectReport jparseFix true 100 170 ctx4Fix resp200Fix = some report4Fix ∧
    report4Fix.ok = true ∧
    payloadNullDataFix.data = some .null ∧
    resp200Fix.status = 200 ∧
    payloadNullDataFix.errors = none :=
  ⟨rfl, rfl, rfl, rfl, rfl⟩

/-- C4 (amended): for every report emitted by `createReportCollector`
whose request parsed successfully, `report.ok` is true iff the response
status is in `[200, 400)`, the GraphQL payload was recorded and its
`data` field is PRESENT (`data !== undefined`; a null `data` counts as
present), and the `errors` key is absent or an empty array. -/
theorem c4_report_ok_iff
    (jparse : String → Except String Json) (calcOpt : Bool)
    (started_at collect_at pts : Int) (p : ParsedRequestM)
    (proxyRec : Option CtxProxy) (gqlRec : Option CtxGql)
    (response : ResponseM) (report : ReportM)
    (hc : collectReport jparse calcOpt started_at collect_at
      ⟨some ⟨pts, .ok p⟩, proxyRec, gqlRec⟩ response = some report) :
    report.ok = true ↔
      (200 ≤ response.status ∧ response.status < 400 ∧
        ∃ g, gqlRec = some g ∧ g.resp.data ≠ none ∧
          (g.resp.errors = none ∨ g.resp.errors = some (.arr []))) := by
  unfold collectReport at hc
  dsimp only at hc
  simp only [Option.some.injEq] at hc
  subst hc
  dsimp only [reportOkOf]
  cases gqlRec with
  | none => simp
  | some g =>
    simp only [Bool.and_eq_true, decide_eq_true_eq, Option.some.injEq]
    constructor
    · rintro ⟨⟨h1, h2⟩, h3, h4⟩
      refine ⟨h1, h2, g, rfl, ?_, ?_⟩
      · exact Option.isSome_iff_ne_none.mp h3
      · cases herr : g.resp.errors with
        | none => exact Or.inl rfl
        | some j =>
          rw [herr] at h4
          cases j with
          | arr l =>
            cases l with
            | nil => exact Or.inr rfl
            | cons a as => simp [gqlErrorsAbsentOrEmpty] at h4
          | null => simp [gqlErrorsAbsentOrEmpty] at h4
          | bool b => simp [gqlErrorsAbsentOrEmpty] at h4
          | num n => simp [gqlErrorsAbsentOrEmpty] at h4
          | str s => simp [gqlErrorsAbsentOrEmpty] at h4
          | obj kvs => simp [gqlErrorsAbsentOrEmpty] at h4
    · rintro ⟨h1, h2, g', hg, hdata, herr⟩
      obtain rfl : g' = g := hg.symm
      refine ⟨⟨h1, h2⟩, Option.isSome_iff_ne_none.mpr hdata, ?_⟩
      cases herr with
      | inl hnone => rw [hnone]; rfl
      | inr hempty => rw [hempty]; rfl

/-- Witness for the amended C4: at status 200 with a recorded payload
whose `data` is present (null) and no errors, `ok` is true and the iff's
right side holds. -/
theorem c4_report_ok_iff_witness :
    report4Fix.ok = true ∧
    (200 ≤ resp200Fix.status ∧ resp200Fix.status < 400 ∧
      ∃ g, ctx4Fix.gqlRec = some g ∧ g.resp.data ≠ none ∧
        (g.resp.errors = none ∨ g.resp.errors = some (.arr []))) :=
  ⟨rfl,
   (c4_report_ok_iff jparseFix true 100 170 110 pReqFix
     (some ⟨150, resp200Fix⟩) (some ⟨160, payloadNullDataFix⟩)
     resp200Fix report4Fix rfl).mp rfl⟩

/-! ## C5 — synthesized report errors: `status > 400` instead of
`status >= 400` (code bug) -/

/-- C5 as a code bug, evaluated at the failing input: request parsed
successfully, no upstream GraphQL errors, response status exactly 400
with a non-JSON body — the collector leaves `report.errors` absent,
although the changelog says "Set errors on report when statusCode >=
400"; at status 401 the error IS synthesized from the body. -/
theorem c5_status_400_errors_dropped :
    ((collectReport jparseFix true 100 170 ctx6Fix resp400Fix).getD default).errors
        = none ∧
    ((collectReport jparseFix true 100 170 ctx6Fix resp401Fix).getD default).errors
        = some [.obj [("message", .str "cannot parse error: 401"),
                      ("status", .num 401)]] :=
  ⟨rfl, rfl⟩

/-! ## C3 — proxy I/O failure handling (corrected: the exception message
is sent to the client, `"internal error"` is only the fallback) -/

/-- Counterexample to C3 as stated: when the downstream fetch throws an
exception whose message is `connect ECONNREFUSED`, the handler's client
response carries THAT message (`e.message ?? 'internal error'`), not the
fixed string `"internal error"`. -/
theorem c3_proxy_error_message_leak_counterexample :
    handleResponse jparseFix (.ok pReqFix) (.error (some "connect ECONNREFUSED")) =
      createErrorResponse "connect ECONNREFUSED" 500 ∧
    (createErrorResponse "connect ECONNREFUSED" 500).bodyText ≠
      (createErrorResponse "internal error" 500).bodyText :=
  ⟨rfl, by decide⟩

/-- C3 (amended): for every parsed request, if the downstream fetch
throws then the handler returns a client response with status 500 whose
body message is the exception's own message when present and `"internal
error"` only when the exception has none; the collector's report for that
response has `ok = false` and records the failure, its `errors` being
synthesized from the 500 response body. -/
theorem c3_fetch_failure_handling
    (jparse : String → Except String Json) (p : ParsedRequestM) (e : Option String) :
    handleResponse jparse (.ok p) (.error e) =
      createErrorResponse (e.getD "internal error") 500 ∧
    (createErrorResponse (e.getD "internal error") 500).status = 500 ∧
    (∀ started_at collect_at pts xts : Int, ∀ report : ReportM,
      collectReport jparse true started_at collect_at
        ⟨some ⟨pts, .ok p⟩,
         some ⟨xts, createErrorResponse (e.getD "internal error") 500⟩, none⟩
        (createErrorResponse (e.getD "internal error") 500) = some report →
      report.ok = false ∧
      report.errors = some [responseTextToError jparse
        (createErrorResponse (e.getD "internal error") 500).bodyText 500]) := by
  refine ⟨rfl, rfl, ?_⟩
  intro started_at collect_at pts xts report hc
  unfold collectReport at hc
  dsimp only at hc
  simp only [Option.some.injEq] at hc
  subst hc
  exact ⟨rfl, rfl⟩

/-- Witness for the amended C3 with message `connect ECONNREFUSED`: the
client gets that text with status 500, and the report is not-ok with the
message preserved. -/
theorem c3_fetch_failure_handling_witness :
    handleResponse jparseFix (.ok pReqFix) (.error (some "connect ECONNREFUSED")) =
      createErrorResponse "connect ECONNREFUSED" 500 ∧
    reportC3Fix.ok = false ∧
    reportC3Fix.errors = some [.obj [("message", .str "connect ECONNREFUSED")]] :=
  ⟨(c3_fetch_failure_handling jparseFix pReqFix (some "connect ECONNREFUSED")).1,
   ((c3_fetch_failure_handling jparseFix pReqFix (some "connect ECONNREFUSED")).2.2
     100 170 110 150 reportC3Fix rfl).1,
   ((c3_fetch_failure_handling jparseFix pReqFix (some "connect ECONNREFUSED")).2.2
     100 170 110 150 reportC3Fix rfl).2.trans rfl⟩

/-! ## C7 — signature admission with `sign_secret` absent -/

/-- With `sign_secret` absent, signature admission reduces to: body
decode, query truthiness, document parse; the passthrough/HMAC guards
never fire. -/
theorem signatureParseFn_no_secret (cm : CryptoModel)
    (parseQ : String → Option DocNode) (printNorm : DocNode → String)
    (cfg : SigConfig) (req : SigRequest) (hsecret : cfg.signSecret = none) :
    signatureParseFn cm parseQ printNorm cfg req =
      (match req.bodyJson with
       | .error _ => .error ⟨403, "not valid body"⟩
       | .ok body =>
         if !jsTruthyOpt (jget body "query") then
           .error ⟨403, "Missing query in body"⟩
         else
           match jget body "query" with
           | some (.str s) =>
             match parseQ s with
             | none => .error ⟨403, "cannot parse query"⟩
             | some _ =>
               .ok { query := s, operationName := jget body "operationName",
                     vars := jget body "variables", headers := req.headers,
                     isPassthrough := isPassthroughRequest cm cfg.passThroughHash
                       req.passHeader }
           | _ => .error ⟨403, "cannot parse query"⟩) := by
  unfold signatureParseFn
  simp only [hsecret, signSecretTruthy, Bool.and_false, Bool.false_and,
    Bool.false_eq_true, if_false]

/-- C7: for every request processed by signature admission configured
with `sign_secret` absent, the signature-header check and the HMAC
verification are skipped (neither signature rejection can occur), and the
request is admitted — yields a `ParsedRequest` rather than a 403 — iff
the body JSON-decodes, contains a `query` field, and that query parses
under the token cap.  (Uses the GraphQL-grammar fact that the empty
string does not parse, `parseQ "" = none`, which makes JS truthiness of
`body.query` agree with field presence.) -/
theorem c7_no_secret_admission_iff (cm : CryptoModel)
    (parseQ : String → Option DocNode) (printNorm : DocNode → String)
    (cfg : SigConfig) (req : SigRequest)
    (hsecret : cfg.signSecret = none)
    (hempty : parseQ "" = none) :
    ((∃ pr, signatureParseFn cm parseQ printNorm cfg req = .ok pr) ↔
      (∃ body, req.bodyJson = .ok body ∧ jget body "query" ≠ none ∧
        ∃ s doc, jget body "query" = some (.str s) ∧ parseQ s = some doc)) ∧
    (∀ e, signatureParseFn cm parseQ printNorm cfg req = .error e →
      e.message ≠ "signature not defined" ∧
      e.message ≠ "Invalid x-proxy-op-hash header") := by
  have hch := signatureParseFn_no_secret cm parseQ printNorm cfg req hsecret
  constructor
  · constructor
    · rintro ⟨pr, hok⟩
      rw [hch] at hok
      cases hb : req.bodyJson with
      | error m => simp only [hb] at hok; exact Except.noConfusion hok
      | ok body =>
        simp only [hb] at hok
        cases hq : jget body "query" with
        | none => simp only [hq] at hok; split at hok <;> exact Except.noConfusion hok
        | some j =>
          cases j with
          | str s =>
            simp only [hq] at hok
            by_cases hs : s = ""
            · subst hs
              simp only [jsTruthyOpt, jsTruthy] at hok
              simp at hok
            · have htr : jsTruthyOpt (some (.str s)) = true := by
                simp [jsTruthyOpt, jsTruthy, hs]
              rw [htr] at hok
              simp only [Bool.not_true, Bool.false_eq_true, if_false] at hok
              cases hp : parseQ s with
              | none => rw [hp] at hok; exact Except.noConfusion hok
              | some doc =>
                exact ⟨body, rfl, by rw [hq]; exact fun hcon => Option.noConfusion hcon,
                  s, doc, hq, hp⟩
          | null => simp only [hq] at hok; split at hok <;> exact Except.noConfusion hok
          | bool b => simp only [hq] at hok; split at hok <;> exact Except.noConfusion hok
          | num n => simp only [hq] at hok; split at hok <;> exact Except.noConfusion hok
          | arr l => simp only [hq] at hok; split at hok <;> exact Except.noConfusion hok
          | obj kvs => simp only [hq] at hok; split at hok <;> exact Except.noConfusion hok
    · rintro ⟨body, hb, _, s, doc, hq, hp⟩
      have hs : s ≠ "" := by
        intro hcon
        rw [hcon, hempty] at hp
        exact Option.noConfusion hp
      have htr : jsTruthyOpt (some (Json.str s)) = true := by
        simp [jsTruthyOpt, jsTruthy, hs]
      refine ⟨{ query := s, operationName := jget body "operationName",
                vars := jget body "variables", headers := req.headers,
                isPassthrough := isPassthroughRequest cm cfg.passThroughHash
                  req.passHeader }, ?_⟩
      rw [hch, hb]
      simp only [hq, hp, htr, Bool.not_true, Bool.false_eq_true, if_false]
  · intro e herr
    rw [hch] at herr
    cases hb : req.bodyJson with
    | error m =>
      simp only [hb, Except.error.injEq] at herr
      subst herr
      exact ⟨by decide, by decide⟩
    | ok body =>
      simp only [hb] at herr
      split at herr
      · simp only [Except.error.injEq] at herr
        subst herr
        exact ⟨by decide, by decide⟩
      · split at herr
        · split at herr
          · simp only [Except.error.injEq] at herr
            subst herr
            exact ⟨by decide, by decide⟩
          · exact Except.noConfusion herr
        · simp only [Except.error.injEq] at herr
          subst herr
          exact ⟨by decide, by decide⟩

/-- Witness for C7: with no secret configured, a plain POST body with a
parsable query is admitted, and the iff's right side holds concretely. -/
theorem c7_no_secret_admission_iff_witness :
    (∃ pr, signatureParseFn cryptoFix parseQFix printNormFix sigCfgNoSecretFix
      sigReqPlainFix = .ok pr) ∧
    signatureParseFn cryptoFix parseQFix printNormFix sigCfgNoSecretFix
      sigReqPlainFix =
      .ok { query := "query me \x7b me \x7d", operationName := none,
            vars := none, headers := [], isPassthrough := false } :=
  ⟨(c7_no_secret_admission_iff cryptoFix parseQFix printNormFix
      sigCfgNoSecretFix sigReqPlainFix rfl rfl).1.mpr
      ⟨.obj [("query", .str "query me \x7b me \x7d")], rfl,
       fun hcon => Option.noConfusion hcon,
       "query me \x7b me \x7d", ⟨7⟩, rfl, rfl⟩,
   rfl⟩

/-! ## C8 — wrong passthrough scenario (corrected: without the op-hash
header the rejection says "signature not defined") -/

/-- Counterexample to C8 as stated: with `pass_through_hash =
SHA-256-hex("pass")`, a signing secret configured, passthrough header
`KABOOM` and NO `x-proxy-op-hash` header, admission rejects 403 with
message `signature not defined` — not `Invalid x-proxy-op-hash header`
(step 2 fires before any body handling). -/
theorem c8_wrong_passthrough_no_header_counterexample :
    signatureParseFn cryptoFix parseQFix printNormFix sigCfgFix sigReqC8Fix =
      .error ⟨403, "signature not defined"⟩ ∧
    "signature not defined" ≠ "Invalid x-proxy-op-hash header" ∧
    (createParseErrorResponse ⟨403, "signature not defined"⟩).status = 403 :=
  ⟨rfl, by decide, rfl⟩

/-- C8 (amended): in the wrong-passthrough scenario with an
`x-proxy-op-hash` header PRESENT whose value fails HMAC verification
(as the repository's test sends, `hash123`), admission rejects with 403
and the JSON body `{"message":"Invalid x-proxy-op-hash header"}`. -/
theorem c8_wrong_passthrough_bad_hash (cm : CryptoModel)
    (parseQ : String → Option DocNode) (printNorm : DocNode → String)
    (cfg : SigConfig) (req : SigRequest) (body : Json) (s : String)
    (doc : DocNode) (hv : String)
    (hpass : isPassthroughRequest cm cfg.passThroughHash req.passHeader = false)
    (hsec : signSecretTruthy cfg.signSecret = true)
    (hheader : req.opHashHeader = some hv) (hhv : hv ≠ "")
    (hbody : req.bodyJson = .ok body)
    (hq : jget body "query" = some (.str s)) (hs : s ≠ "")
    (hparse : parseQ s = some doc)
    (hver : cm.timingEq hv (cm.hmacHex (signSecretValue cfg.signSecret)
      (signSecretAlgo cfg.signSecret) (printNorm doc)) = false) :
    signatureParseFn cm parseQ printNorm cfg req =
      .error ⟨403, "Invalid x-proxy-op-hash header"⟩ ∧
    (createParseErrorResponse ⟨403, "Invalid x-proxy-op-hash header"⟩).status = 403 ∧
    (createParseErrorResponse ⟨403, "Invalid x-proxy-op-hash header"⟩).bodyText =
      jsonStringify (.obj [("message", .str "Invalid x-proxy-op-hash header")]) := by
  refine ⟨?_, rfl, rfl⟩
  unfold signatureParseFn
  have hhf : hashHeaderFalsy (some hv) = false := by
    simp [hashHeaderFalsy, hhv]
  have htr : jsTruthyOpt (some (Json.str s)) = true := by
    simp [jsTruthyOpt, jsTruthy, hs]
  simp only [hpass, hsec, Bool.not_false, Bool.and_true, Bool.and_false,
    Bool.false_eq_true, if_false, hbody, Bool.not_true, hq, hparse,
    hheader, hver, Bool.true_and, if_true, hhf, htr]

/-- Witness for the amended C8 at the test's concrete input. -/
theorem c8_wrong_passthrough_bad_hash_witness :
    signatureParseFn cryptoFix parseQFix printNormFix sigCfgFix sigReqC8hFix =
      .error ⟨403, "Invalid x-proxy-op-hash header"⟩ ∧
    (createParseErrorResponse ⟨403, "Invalid x-proxy-op-hash header"⟩).status = 403 :=
  ⟨(c8_wrong_passthrough_bad_hash cryptoFix parseQFix printNormFix sigCfgFix
      sigReqC8hFix (.obj [("query", .str "query me \x7b me \x7d")])
      "query me \x7b me \x7d" ⟨7⟩ "hash123"
      (by decide) (by decide) rfl (by decide) rfl rfl (by decide) rfl
      (by decide)).1,
   rfl⟩

/-! ## C9 — suggestion masking.  Helper lemmas about the regex model. -/

theorem matchAt_pos {s : List Char} {len : Nat} (hma : matchAt s = some len) :
    1 ≤ len := by
  unfold matchAt at hma
  split at hma
  · cases hfc : findClose (s.drop 14) with
    | none => rw [hfc] at hma; exact Option.noConfusion hma
    | some k =>
      rw [hfc] at hma
      injection hma with h
      omega
  · exact Option.noConfusion hma

theorem replaceAllGo_fuel (mask : List Char) :
    ∀ (f g : Nat) (s : List Char), s.length ≤ f → s.length ≤ g →
      replaceAllGo mask f s = replaceAllGo mask g s := by
  intro f
  induction f with
  | zero =>
    intro g s hf _
    have hs : s = [] := List.length_eq_zero.mp (Nat.le_zero.mp hf)
    subst hs
    cases g <;> rfl
  | succ f ih =>
    intro g s hf hg
    cases s with
    | nil => cases g <;> rfl
    | cons c cs =>
      cases g with
      | zero => simp at hg
      | succ g =>
        cases hma : matchAt (c :: cs) with
        | some len =>
          have hlen : 1 ≤ len := matchAt_pos hma
          simp only [replaceAllGo, hma]
          congr 1
          apply ih
          · simp only [List.length_cons] at hf
            simp only [List.length_drop, List.length_cons]
            omega
          · simp only [List.length_cons] at hg
            simp only [List.length_drop, List.length_cons]
            omega
        | none =>
          simp only [replaceAllGo, hma]
          congr 1
          apply ih
          · simp only [List.length_cons] at hf; omega
          · simp only [List.length_cons] at hg; omega

theorem replaceAllAux_nil (mask : List Char) : replaceAllAux mask [] = [] := rfl

theorem replaceAllAux_cons_some {c : Char} {cs : List Char} {len : Nat}
    (mask : List Char) (hma : matchAt (c :: cs) = some len) :
    replaceAllAux mask (c :: cs) =
      mask ++ replaceAllAux mask ((c :: cs).drop len) := by
  have hlen : 1 ≤ len := matchAt_pos hma
  show replaceAllGo mask (c :: cs).length (c :: cs) = _
  simp only [List.length_cons, replaceAllGo, hma]
  congr 1
  apply replaceAllGo_fuel
  · simp only [List.length_drop, List.length_cons]
    omega
  · exact le_rfl

theorem replaceAllAux_cons_none {c : Char} {cs : List Char}
    (mask : List Char) (hma : matchAt (c :: cs) = none) :
    replaceAllAux mask (c :: cs) = c :: replaceAllAux mask cs := by
  show replaceAllGo mask (c :: cs).length (c :: cs) = _
  simp only [List.length_cons, replaceAllGo, hma]
  rfl

theorem matchAt_cons_ne_D {c : Char} (l : List Char) (hc : c ≠ 'D') :
    matchAt (c :: l) = none := by
  unfold matchAt
  have hpre : lit.isPrefixOf (c :: l) = false := by
    unfold lit
    simp [List.isPrefixOf, Ne.symm hc]
  rw [hpre]
  simp

theorem findCloseAux_isSome_eq (r : List Char) : ∀ (idx : Nat) (best : Option Nat),
    1 ≤ idx → (findCloseAux r idx best).isSome = (best.isSome || find0 r) := by
  induction r with
  | nil => intro idx best _; simp [findCloseAux, find0]
  | cons c cs ih =>
    intro idx best hidx
    unfold findCloseAux
    by_cases hd : isDot c = true
    · rw [if_pos hd, ih (idx + 1) _ (by omega)]
      by_cases hq : c = '"'
      · rw [if_pos ⟨hq, hidx⟩]
        simp [find0, hq, hd]
      · rw [if_neg (fun hcon => hq hcon.1)]
        simp [find0, hq, hd]
    · rw [if_neg hd]
      have hq : ¬(c = '"') := by
        intro hcon
        subst hcon
        exact hd (by decide)
      simp [find0, hq, Bool.not_eq_true _ ▸ hd]

theorem findClose_isSome_eq (r : List Char) : (findClose r).isSome = findQ r := by
  unfold findClose
  cases r with
  | nil => simp [findCloseAux, findQ]
  | cons c cs =>
    unfold findCloseAux
    by_cases hd : isDot c = true
    · rw [if_pos hd]
      have hcond : ¬(c = '"' ∧ 1 ≤ 0) := fun hcon => by omega
      rw [if_neg hcond, findCloseAux_isSome_eq cs 1 none (by omega)]
      simp [findQ, hd]
    · rw [if_neg hd]
      simp [findQ, Bool.not_eq_true _ ▸ hd]

theorem find0_append_dots {ds rest : List Char}
    (hds : ∀ c ∈ ds, isDot c = true) (hrest : find0 rest = true) :
    find0 (ds ++ rest) = true := by
  induction ds with
  | nil => simpa using hrest
  | cons c ds ih =>
    have hc : isDot c = true := hds c (List.mem_cons_self c ds)
    have ih2 := ih (fun x hx => hds x (List.mem_cons_of_mem c hx))
    simp [find0, hc, ih2]

theorem findQ_imp_find0 {r : List Char} (h : findQ r = true) : find0 r = true := by
  cases r with
  | nil => simpa [findQ] using h
  | cons c cs =>
    simp only [findQ, Bool.and_eq_true] at h
    simp [find0, h.1, h.2]

theorem lit_all_dots : ∀ c ∈ lit, isDot c = true := by decide

theorem litTail_all_dots : ∀ c ∈ litTail, isDot c = true := by decide

theorem matchAt_prefix_close {s : List Char} {len : Nat}
    (hma : matchAt s = some len) :
    lit.isPrefixOf s = true ∧ findQ (s.drop 14) = true := by
  unfold matchAt at hma
  split at hma
  · rename_i hpre
    refine ⟨hpre, ?_⟩
    cases hfc : findClose (s.drop 14) with
    | none => rw [hfc] at hma; exact Option.noConfusion hma
    | some k =>
      have := findClose_isSome_eq (s.drop 14)
      rw [hfc] at this
      simpa using this.symm
  · exact Option.noConfusion hma

theorem find0_of_matchAt {s : List Char} {len : Nat}
    (hma : matchAt s = some len) : find0 s = true := by
  obtain ⟨hpre, hclose⟩ := matchAt_prefix_close hma
  obtain ⟨rest, hrest⟩ : ∃ rest, lit ++ rest = s :=
    List.isPrefixOf_iff_prefix.mp hpre
  subst hrest
  have hdrop : (lit ++ rest).drop 14 = rest := by
    have : lit.length = 14 := by decide
    rw [← this, List.drop_left]
  rw [hdrop] at hclose
  exact find0_append_dots lit_all_dots (findQ_imp_find0 hclose)

theorem findQ_of_matchAt {s : List Char} {len : Nat}
    (hma : matchAt s = some len) : findQ s = true := by
  obtain ⟨hpre, hclose⟩ := matchAt_prefix_close hma
  obtain ⟨rest, hrest⟩ : ∃ rest, lit ++ rest = s :=
    List.isPrefixOf_iff_prefix.mp hpre
  subst hrest
  have hdrop : (lit ++ rest).drop 14 = rest := by
    have : lit.length = 14 := by decide
    rw [← this, List.drop_left]
  rw [hdrop] at hclose
  show findQ ('D' :: (litTail ++ rest)) = true
  have hfd : find0 (litTail ++ rest) = true :=
    find0_append_dots litTail_all_dots (findQ_imp_find0 hclose)
  simp [findQ, hfd]
  decide

theorem find0_replaceAll (mask : List Char) :
    ∀ (n : Nat) (t : List Char), t.length ≤ n → find0 t = false →
      find0 (replaceAllAux mask t) = false := by
  intro n
  induction n with
  | zero =>
    intro t ht h0
    have ht0 : t = [] := List.length_eq_zero.mp (Nat.le_zero.mp ht)
    subst ht0
    rw [replaceAllAux_nil]
    exact h0
  | succ n ih =>
    intro t ht h0
    cases t with
    | nil => rw [replaceAllAux_nil]; exact h0
    | cons c cs =>
      cases hma : matchAt (c :: cs) with
      | some len =>
        rw [find0_of_matchAt hma] at h0
        exact Bool.noConfusion h0
      | none =>
        rw [replaceAllAux_cons_none mask hma]
        simp only [find0, Bool.or_eq_false_iff, Bool.and_eq_false_iff,
          decide_eq_false_iff_not] at h0 ⊢
        refine ⟨h0.1, ?_⟩
        cases h0.2 with
        | inl hd => exact Or.inl hd
        | inr hf =>
          have hcs : cs.length ≤ n := by
            simp only [List.length_cons] at ht
            omega
          exact Or.inr (ih cs hcs hf)

theorem findQ_replaceAll (mask : List Char) (t : List Char)
    (h : findQ t = false) : findQ (replaceAllAux mask t) = false := by
  cases t with
  | nil => rw [replaceAllAux_nil]; exact h
  | cons c cs =>
    cases hma : matchAt (c :: cs) with
    | some len =>
      rw [findQ_of_matchAt hma] at h
      exact Bool.noConfusion h
    | none =>
      rw [replaceAllAux_cons_none mask hma]
      simp only [findQ, Bool.and_eq_false_iff] at h ⊢
      cases h with
      | inl hd => exact Or.inl hd
      | inr hf => exact Or.inr (find0_replaceAll mask cs.length cs le_rfl hf)

theorem containsMatch_cons (c : Char) (cs : List Char) :
    containsMatch (c :: cs) = ((matchAt (c :: cs)).isSome || containsMatch cs) :=
  rfl

theorem containsMatch_mask_append {mask : List Char}
    (hD : 'D' ∉ mask) (v : List Char) :
    containsMatch (mask ++ v) = containsMatch v := by
  induction mask with
  | nil => simp
  | cons m0 mrest ih =>
    have hm0 : m0 ≠ 'D' := fun hcon => hD (by rw [hcon]; exact List.mem_cons_self _ _)
    have hmr : 'D' ∉ mrest := fun h => hD (List.mem_cons_of_mem _ h)
    rw [List.cons_append, containsMatch_cons, matchAt_cons_ne_D _ hm0]
    simp only [Option.isSome_none, Bool.false_or]
    exact ih hmr

theorem prefix_replaceAll (mask : List Char) (hne : mask ≠ []) :
    ∀ (p : List Char), (∀ a ∈ p, mask.head? ≠ some a) →
      ∀ (t : List Char), p.isPrefixOf (replaceAllAux mask t) = true →
        p.isPrefixOf t = true ∧
          (replaceAllAux mask t).drop p.length =
            replaceAllAux mask (t.drop p.length) := by
  intro p
  induction p with
  | nil =>
    intro _ t _
    refine ⟨?_, rfl⟩
    cases t <;> rfl
  | cons a p' ih =>
    intro hcond t hpre
    cases t with
    | nil =>
      rw [replaceAllAux_nil] at hpre
      exact absurd hpre (by simp [List.isPrefixOf])
    | cons c cs =>
      cases hma : matchAt (c :: cs) with
      | some len =>
        rw [replaceAllAux_cons_some mask hma] at hpre
        obtain ⟨m0, mrest, rfl⟩ : ∃ m0 mrest, mask = m0 :: mrest := by
          cases mask with
          | nil => exact absurd rfl hne
          | cons x xs => exact ⟨x, xs, rfl⟩
        simp only [List.cons_append, List.isPrefixOf, Bool.and_eq_true,
          beq_iff_eq] at hpre
        exact absurd (by rw [hpre.1]; rfl :
          (m0 :: mrest).head? = some a)
          (hcond a (List.mem_cons_self a p'))
      | none =>
        rw [replaceAllAux_cons_none mask hma] at hpre
        simp only [List.isPrefixOf, Bool.and_eq_true, beq_iff_eq] at hpre
        obtain ⟨rfl, hp'⟩ := hpre
        obtain ⟨hp't, hdrop⟩ :=
          ih (fun x hx => hcond x (List.mem_cons_of_mem a hx)) cs hp'
        constructor
        · simp [List.isPrefixOf, hp't]
        · rw [replaceAllAux_cons_none mask hma]
          simpa [List.length_cons, List.drop_succ_cons] using hdrop

theorem noMatch_replaceAll (mask : List Char) (hsafe : maskSafe mask = true) :
    ∀ (n : Nat) (t : List Char), t.length ≤ n →
      containsMatch (replaceAllAux mask t) = false := by
  have hne : mask ≠ [] := by
    intro hcon
    subst hcon
    simp [maskSafe] at hsafe
  have hD : 'D' ∉ mask := by
    intro hm
    simp only [maskSafe, Bool.and_eq_true, Bool.not_eq_true'] at hsafe
    have h4 : mask.contains 'D' = true := List.elem_eq_true_of_mem hm
    rw [hsafe.1.2] at h4
    exact Bool.noConfusion h4
  have hhead : ∀ a ∈ litTail, mask.head? ≠ some a := by
    intro a ha hcon
    simp only [maskSafe, Bool.and_eq_true, Bool.not_eq_true'] at hsafe
    have h3 := hsafe.2
    rw [hcon] at h3
    simp only [Bool.not_eq_true'] at h3
    have h4 : litTail.contains a = true := List.elem_eq_true_of_mem ha
    rw [h4] at h3
    exact Bool.noConfusion h3
  intro n
  induction n with
  | zero =>
    intro t ht
    have ht0 : t = [] := List.length_eq_zero.mp (Nat.le_zero.mp ht)
    subst ht0
    rw [replaceAllAux_nil]
    rfl
  | succ n ih =>
    intro t ht
    cases t with
    | nil => rw [replaceAllAux_nil]; rfl
    | cons c cs =>
      cases hma : matchAt (c :: cs) with
      | some len =>
        rw [replaceAllAux_cons_some mask hma, containsMatch_mask_append hD]
        apply ih
        have hlen : 1 ≤ len := matchAt_pos hma
        simp only [List.length_cons] at ht
        simp only [List.length_drop, List.length_cons]
        omega
      | none =>
        rw [replaceAllAux_cons_none mask hma]
        have hcs : containsMatch (replaceAllAux mask cs) = false :=
          ih cs (by simpa [List.length_cons, Nat.succ_le_succ_iff] using ht)
        have hhd : matchAt (c :: replaceAllAux mask cs) = none := by
          by_cases hc : c = 'D'
          · subst hc
            by_cases hpre : litTail.isPrefixOf (replaceAllAux mask cs) = true
            · obtain ⟨hpcs, hdrop⟩ := prefix_replaceAll mask hne litTail hhead cs hpre
              have hlitpre : lit.isPrefixOf ('D' :: cs) = true := by
                simp [lit, List.isPrefixOf, hpcs]
              have hfc : findClose (cs.drop 13) = none := by
                unfold matchAt at hma
                rw [hlitpre] at hma
                simp only [if_true] at hma
                cases hfc2 : findClose (('D' :: cs).drop 14) with
                | some k => rw [hfc2] at hma; exact Option.noConfusion hma
                | none => simpa [List.drop_succ_cons] using hfc2
              have hfq : findQ (cs.drop 13) = false := by
                have := findClose_isSome_eq (cs.drop 13)
                rw [hfc] at this
                simpa using this.symm
              have hfq2 : findQ (replaceAllAux mask (cs.drop 13)) = false :=
                findQ_replaceAll mask _ hfq
              have hfc2 : findClose (replaceAllAux mask (cs.drop 13)) = none := by
                have := findClose_isSome_eq (replaceAllAux mask (cs.drop 13))
                rw [hfq2] at this
                exact Option.not_isSome_iff_eq_none.mp (by simp [this])
              unfold matchAt
              have hlitpre2 : lit.isPrefixOf ('D' :: replaceAllAux mask cs) = true := by
                simp [lit, List.isPrefixOf, hpre]
              rw [hlitpre2]
              have hd13 : litTail.length = 13 := by decide
              have : ('D' :: replaceAllAux mask cs).drop 14 =
                  replaceAllAux mask (cs.drop 13) := by
                rw [List.drop_succ_cons]
                rw [hd13] at hdrop
                exact hdrop
              rw [this, hfc2]
              simp
            · rw [Bool.not_eq_true] at hpre
              have hp2 : lit.isPrefixOf ('D' :: replaceAllAux mask cs) = false := by
                show ('D' :: litTail).isPrefixOf ('D' :: replaceAllAux mask cs) = false
                simp [List.isPrefixOf, hpre]
              unfold matchAt
              rw [hp2]
              simp
          · exact matchAt_cons_ne_D _ hc
        simp [containsMatch, hhd, hcs]

theorem lookup_setKey (kvs : List (String × Json)) (k : String) (v w : Json)
    (h : kvs.lookup k = some w) : (setKey kvs k v).lookup k = some v := by
  induction kvs with
  | nil => simp [List.lookup] at h
  | cons p rest ih =>
    obtain ⟨k0, v0⟩ := p
    by_cases heq : k = k0
    · subst heq
      have h1 : setKey ((k, v0) :: rest) k v = (k, v) :: setKey rest k v := by
        simp [setKey]
      rw [h1]
      simp [List.lookup]
    · have h1 : setKey ((k0, v0) :: rest) k v = (k0, v0) :: setKey rest k v := by
        have hne2 : ¬(k0 = k) := fun hcon => heq hcon.symm
        simp [setKey, hne2]
      rw [h1]
      have h2 : rest.lookup k = some w := by
        simpa [List.lookup, beq_false_of_ne heq] using h
      have h3 := ih h2
      simpa [List.lookup, beq_false_of_ne heq] using h3

theorem noMatch_replaceAll_str (mask s : String)
    (hsafe : maskSafe mask.toList = true) :
    matchesSuggestion (replaceAll s mask) = false := by
  unfold matchesSuggestion replaceAll
  show containsMatch (String.mk (replaceAllAux mask.toList s.toList)).data = false
  exact noMatch_replaceAll mask.toList hsafe s.toList.length s.toList le_rfl

theorem maskErrorJson_clean (mask : String) (e : Json)
    (hsafe : maskSafe mask.toList = true) :
    errMessageMatches (maskErrorJson mask e) = false := by
  cases e with
  | obj kvs =>
    unfold maskErrorJson
    cases hlk : kvs.lookup "message" with
    | none =>
      simp only [hlk]
      simp [errMessageMatches, hlk]
    | some j =>
      cases j with
      | str s =>
        simp only [hlk]
        by_cases hs : s = ""
        · subst hs
          rw [if_pos rfl]
          unfold errMessageMatches
          simp only [hlk]
          decide
        · rw [if_neg hs]
          have hl2 : (setKey kvs "message" (.str (replaceAll s mask))).lookup
              "message" = some (.str (replaceAll s mask)) :=
            lookup_setKey kvs "message" _ _ hlk
          simp only [errMessageMatches, hl2]
          exact noMatch_replaceAll_str mask s hsafe
      | null => simp only [hlk]; simp [errMessageMatches, hlk]
      | bool b => simp only [hlk]; simp [errMessageMatches, hlk]
      | num n => simp only [hlk]; simp [errMessageMatches, hlk]
      | arr l => simp only [hlk]; simp [errMessageMatches, hlk]
      | obj kvs2 => simp only [hlk]; simp [errMessageMatches, hlk]
  | null => rfl
  | bool b => rfl
  | num n => rfl
  | str s => rfl
  | arr l => rfl

/-- Counterexample to C9 as stated (for arbitrary configured masks): with
the mask `Did you mean "Z"` — itself matching the suggestion pattern —
shaping a payload whose error message matches the pattern yields a
payload whose error message STILL matches the pattern. -/
theorem c9_pathological_mask_counterexample :
    payloadErrorsClean
      (shapePayload (some "Did you mean \"Z\"") false payloadC9Fix) = false ∧
    matchesSuggestion "Did you mean \"Z\"" = true ∧
    matchesSuggestion "Did you mean \"X\"" = true :=
  ⟨by decide, by decide, by decide⟩

/-- C9 (amended): for every origin payload and every configured mask that
cannot re-introduce the pattern — non-empty, containing no `D`, and whose
first character is not one of the characters of `id you mean "` (the
default `[Suggestion hidden]` qualifies) — the shaped payload contains no
error whose message matches `/Did you mean ".+"/`: every occurrence in
every error message has been replaced by the mask. -/
theorem c9_masking_removes_suggestions (mask : String) (rm : Bool)
    (p : GqlPayload) (hsafe : maskSafe mask.toList = true) :
    payloadErrorsClean (shapePayload (some mask) rm p) = true := by
  have hmne : ¬(mask = "") := by
    intro hcon
    subst hcon
    simp [maskSafe] at hsafe
  cases herr : p.errors with
  | none =>
    simp [shapePayload, applyErrorMasking, payloadErrorsClean, herr, hmne]
  | some j =>
    cases j with
    | arr l =>
      simp only [shapePayload, applyErrorMasking, payloadErrorsClean, herr,
        if_neg hmne]
      rw [List.all_eq_true]
      intro e he
      obtain ⟨e0, _, rfl⟩ := List.mem_map.mp he
      simp [maskErrorJson_clean mask e0 hsafe]
    | null => simp [shapePayload, applyErrorMasking, payloadErrorsClean, herr, hmne]
    | bool b => simp [shapePayload, applyErrorMasking, payloadErrorsClean, herr, hmne]
    | num n => simp [shapePayload, applyErrorMasking, payloadErrorsClean, herr, hmne]
    | str s => simp [shapePayload, applyErrorMasking, payloadErrorsClean, herr, hmne]
    | obj kvs => simp [shapePayload, applyErrorMasking, payloadErrorsClean, herr, hmne]

/-- Witness for the amended C9: the default mask `[Suggestion hidden]` is
safe and shaping the suggestion-leaking payload leaves no matching error
message. -/
theorem c9_masking_removes_suggestions_witness :
    maskSafe "[Suggestion hidden]".toList = true ∧
    payloadErrorsClean
      (shapePayload (some "[Suggestion hidden]") false payloadC9Fix) = true :=
  ⟨by decide,
   c9_masking_removes_suggestions "[Suggestion hidden]" false payloadC9Fix
     (by decide)⟩

end GraphQLEdgeProxy
